import Mathlib

/-!
Verification development for the image-annotation core: domain models
(`src/core/models.py`), the annotation store (`src/core/annotation_manager.py`),
the image collection navigator (`src/core/image_manager.py`), the label
registry (`src/core/label_manager.py`), the CSV/COCO export pipeline
(`src/core/export_service.py`), the COCO import pipeline
(`src/core/import_service.py`) and the canvas coordinate transforms
(`src/ui/image_canvas.py`), shallowly embedded as executable Lean functions.

Python dictionaries are modelled as insertion-ordered association lists,
UUID generation and wall-clock timestamps as explicit parameters, raised
exceptions as `Except` results paired with the (unchanged) state, and the
on-disk filesystem consulted by the import pipeline as an explicit list of
existing file paths (a path being a list of segments).
-/

/-- Rectangular bounding box, from `models.BoundingBox`. -/
structure BoundingBox where
  x : Int
  y : Int
  width : Int
  height : Int
deriving DecidableEq

/-- Single image annotation record, from `models.Annotation`.  The
`bounding_box` field is optional exactly as in the source (default `None`);
timestamps are modelled as natural numbers supplied by the caller. -/
structure Annotation where
  id : String
  bounding_box : Option BoundingBox
  label_id : Int
  label_name : String
  image_id : String
  created_at : Nat
  modified_at : Nat
deriving DecidableEq

/-- A filesystem path, as a list of segments. -/
abbrev FsPath : Type := List String

/-- Image record, from `models.ImageMetadata` (pixel data is never held by
the core).  `filename` may carry subdirectory segments, hence it is a path. -/
structure ImageMetadata where
  id : String
  file_path : FsPath
  filename : FsPath
  width : Int
  height : Int
  format : String
  annotations : List Annotation
deriving DecidableEq

/-- Insertion-ordered association list update with Python-dict semantics:
an existing key keeps its position and gets the new value, a new key is
appended at the end. -/
def alistInsert {κ α : Type} [DecidableEq κ] : List (κ × α) → κ → α → List (κ × α)
  | [], k, v => [(k, v)]
  | (k0, v0) :: rest, k, v =>
    if k0 = k then (k0, v) :: rest else (k0, v0) :: alistInsert rest k v

/-- Association-list lookup (`dict.get`). -/
def alistGet {κ α : Type} [DecidableEq κ] : List (κ × α) → κ → Option α
  | [], _ => none
  | (k0, v0) :: rest, k => if k0 = k then some v0 else alistGet rest k

/-- Whether Python's `s.strip()` is empty (falsy): every character of `s`
is whitespace.  Stated over the character list so that it reduces in the
kernel. -/
def strip_empty (s : String) : Bool :=
  s.data.all Char.isWhitespace

/-- The annotation store, from `annotation_manager.AnnotationManager`:
a dictionary keyed by annotation id plus the construction-time validation
toggle. -/
structure AnnotationManager where
  annotations : List (String × Annotation)
  validation_enabled : Bool
deriving DecidableEq

/-- Pure validation predicate, from `AnnotationManager.validate_annotation`. -/
def validate_annotation (a : Annotation) : Bool × String :=
  if a.label_id ≤ 0 then (false, "Label ID must be positive")
  else if a.label_name = "" ∨ strip_empty a.label_name then
    (false, "Label name cannot be empty")
  else
    match a.bounding_box with
    | none => (false, "Bounding box is required")
    | some b =>
      if b.width ≤ 0 ∨ b.height ≤ 0 then
        (false, "Bounding box must have positive width and height")
      else (true, "")

/-- Annotation creation, from `AnnotationManager.create_annotation`.  The
fresh UUID and the current time are explicit arguments; a raised
`ValueError` becomes an `.error` result paired with the untouched store. -/
def create_annotation (mgr : AnnotationManager) (fresh_id : String) (now : Nat)
    (image_id : String) (box : Option BoundingBox) (label_id : Int)
    (label_name : String) : AnnotationManager × Except String Annotation :=
  let a : Annotation :=
    { id := fresh_id, bounding_box := box, label_id := label_id,
      label_name := label_name, image_id := image_id,
      created_at := now, modified_at := now }
  if mgr.validation_enabled then
    match validate_annotation a with
    | (true, _) =>
      ({ mgr with annotations := alistInsert mgr.annotations a.id a }, .ok a)
    | (false, msg) => (mgr, .error ("Invalid annotation: " ++ msg))
  else
    ({ mgr with annotations := alistInsert mgr.annotations a.id a }, .ok a)

/-- Annotation update, from `AnnotationManager.update_annotation` together
with `Annotation.update_box` / `Annotation.update_label`. -/
def update_annotation (mgr : AnnotationManager) (now : Nat) (aid : String)
    (box : Option BoundingBox) (lid : Option Int) (lname : Option String) :
    AnnotationManager × Bool :=
  match alistGet mgr.annotations aid with
  | none => (mgr, false)
  | some a =>
    let a1 := match box with
      | some b => { a with bounding_box := some b, modified_at := now }
      | none => a
    let a2 := match lid, lname with
      | some i, some n => { a1 with label_id := i, label_name := n, modified_at := now }
      | _, _ => a1
    ({ mgr with annotations := alistInsert mgr.annotations aid a2 }, true)

/-- The image collection and navigator state, from
`image_manager.ImageManager`. -/
structure ImageManager where
  images : List (String × ImageMetadata)
  image_order : List String
  current_index : Int
deriving DecidableEq

/-- The empty collection (`ImageManager.__init__`). -/
def emptyImageManager : ImageManager :=
  { images := [], image_order := [], current_index := -1 }

/-- Adding an image, from `ImageManager.add_image`. -/
def add_image (mgr : ImageManager) (file_path : FsPath)
    (metadata : ImageMetadata) : ImageManager × String :=
  let md := { metadata with file_path := file_path }
  let order := mgr.image_order ++ [md.id]
  ({ images := alistInsert mgr.images md.id md,
     image_order := order,
     current_index := if order.length = 1 then 0 else mgr.current_index },
   md.id)

/-- Removing an image, from `ImageManager.remove_image`. -/
def remove_image (mgr : ImageManager) (image_id : String) : ImageManager × Bool :=
  match alistGet mgr.images image_id with
  | none => (mgr, false)
  | some _ =>
    let images := mgr.images.filter (fun p => p.1 ≠ image_id)
    let order := mgr.image_order.erase image_id
    let idx1 :=
      if mgr.current_index ≥ (order.length : Int) then
        max 0 ((order.length : Int) - 1)
      else mgr.current_index
    let idx2 := if order.length = 0 then -1 else idx1
    ({ images := images, image_order := order, current_index := idx2 }, true)

/-- Jumping the cursor to a given image, from `ImageManager.goto_image`. -/
def goto_image (mgr : ImageManager) (image_id : String) : ImageManager × Bool :=
  match alistGet mgr.images image_id with
  | none => (mgr, false)
  | some _ =>
    match mgr.image_order.findIdx? (fun s => s = image_id) with
    | some i => ({ mgr with current_index := (i : Int) }, true)
    | none => (mgr, false)

/-- Replacing the whole label set, from `LabelManager.set_labels`
(`dict.copy` of the argument). -/
def set_labels (labels : List (Int × String)) : List (Int × String) :=
  labels

/-- Adding one label, from `LabelManager.add_label` (`dict.__setitem__`). -/
def add_label (m : List (Int × String)) (label_id : Int) (label_name : String) :
    List (Int × String) :=
  alistInsert m label_id label_name

/-- Errors raised by the export service: the two `ValueError`s of the
spec's `EmptyExportError` taxonomy, and the uncaught `AttributeError` hit
when an annotation has no bounding box (`annotation.bounding_box.x`). -/
inductive ExportErr where
  | noImages
  | noAnnotations
  | attributeError
deriving DecidableEq

/-- Whether an export error is one of the spec's `EmptyExportError` cases
("No images to export" / "No annotations to export"). -/
def ExportErr.isEmptyExport : ExportErr → Bool
  | .noImages => true
  | .noAnnotations => true
  | .attributeError => false

/-- One CSV data row, from `ExportService.export_to_csv`. -/
structure CsvRow where
  image_name : FsPath
  x : Int
  y : Int
  width : Int
  height : Int
  label_id : Int
  label_name : String
deriving DecidableEq

/-- All annotations of a list of images, in traversal order (the nested
`for image in images: for annotation in image.annotations` loop). -/
def allAnns : List ImageMetadata → List Annotation
  | [] => []
  | img :: rest => img.annotations ++ allAnns rest

/-- The (image, annotation) pairs traversed by the CSV export loop. -/
def csvPairs : List ImageMetadata → List (ImageMetadata × Annotation)
  | [] => []
  | img :: rest => img.annotations.map (fun a => (img, a)) ++ csvPairs rest

/-- Row collection of the CSV export; dereferencing a missing bounding box
surfaces the Python `AttributeError`. -/
def csvRowsOf : List (ImageMetadata × Annotation) → Except ExportErr (List CsvRow)
  | [] => .ok []
  | (img, a) :: rest =>
    match a.bounding_box with
    | none => .error .attributeError
    | some b =>
      match csvRowsOf rest with
      | .error e => .error e
      | .ok rs =>
        .ok ({ image_name := img.filename, x := b.x, y := b.y,
               width := b.width, height := b.height, label_id := a.label_id,
               label_name := a.label_name } :: rs)

/-- CSV export, from `ExportService.export_to_csv`.  The file write happens
only after both emptiness checks succeed, so an `.error` result corresponds
to a raise before any write. -/
def export_to_csv (images : List ImageMetadata) : Except ExportErr (List CsvRow) :=
  if images.isEmpty then .error .noImages
  else
    match csvRowsOf (csvPairs images) with
    | .error e => .error e
    | .ok rows => if rows.isEmpty then .error .noAnnotations else .ok rows

/-- COCO image entry, from the `coco_data["images"].append` literal. -/
structure CocoImage where
  id : Int
  file_name : FsPath
  width : Int
  height : Int
deriving DecidableEq

/-- COCO annotation entry, from the `coco_data["annotations"].append`
literal. -/
structure CocoAnnotation where
  id : Int
  image_id : Int
  category_id : Int
  bbox : List Int
  area : Int
  segmentation : List (List Int)
  iscrowd : Int
deriving DecidableEq

/-- COCO category entry, from the `coco_data["categories"].append` literal. -/
structure CocoCategory where
  id : Int
  name : String
deriving DecidableEq

/-- COCO document with all three required sections present. -/
structure CocoDoc where
  images : List CocoImage
  annotations : List CocoAnnotation
  categories : List CocoCategory
deriving DecidableEq

/-- Pairs each list element with its 1-based (when started at 1) index:
Python's `enumerate(images, start=1)`. -/
def withIdx {α : Type} : Nat → List α → List (Nat × α)
  | _, [] => []
  | n, x :: xs => (n, x) :: withIdx (n + 1) xs

/-- The (image index, annotation) pairs encountered by the export loop,
images enumerated from `s`. -/
def flatAnnsFrom (s : Nat) : List ImageMetadata → List (Nat × Annotation)
  | [] => []
  | img :: rest =>
    img.annotations.map (fun a => (s, a)) ++ flatAnnsFrom (s + 1) rest

/-- The COCO image section of the export. -/
def cocoImagesOf (images : List ImageMetadata) : List CocoImage :=
  (withIdx 1 images).map (fun p =>
    { id := (p.1 : Int), file_name := p.2.filename,
      width := p.2.width, height := p.2.height })

/-- The COCO annotation section of the export: sequential ids from `n`,
`bbox = [x, y, width, height]`, `area = width * height`, empty
segmentation, `iscrowd = 0`; a missing bounding box raises. -/
def cocoAnnsOf : Nat → List (Nat × Annotation) → Except ExportErr (List CocoAnnotation)
  | _, [] => .ok []
  | n, (i, a) :: rest =>
    match a.bounding_box with
    | none => .error .attributeError
    | some b =>
      match cocoAnnsOf (n + 1) rest with
      | .error e => .error e
      | .ok tail =>
        .ok ({ id := (n : Int), image_id := (i : Int),
               category_id := a.label_id,
               bbox := [b.x, b.y, b.width, b.height],
               area := b.width * b.height,
               segmentation := [], iscrowd := 0 } :: tail)

/-- The `categories_map` accumulation: the first annotation seen with a
given `label_id` contributes its `label_name`, later ones are ignored. -/
def categoriesMapOf : List (Int × String) → List Annotation → List (Int × String)
  | cm, [] => cm
  | cm, a :: rest =>
    categoriesMapOf
      (if (alistGet cm a.label_id).isSome then cm
       else cm ++ [(a.label_id, a.label_name)]) rest

/-- Insertion into a list sorted ascending. -/
def insertSorted (k : Int) : List Int → List Int
  | [] => [k]
  | x :: xs => if k ≤ x then k :: x :: xs else x :: insertSorted k xs

/-- Ascending insertion sort on integers (`sorted(categories_map.keys())`). -/
def sortInts (l : List Int) : List Int :=
  l.foldr insertSorted []

/-- The COCO category section: category-map keys sorted ascending, each
with its recorded name. -/
def cocoCategoriesOf (cm : List (Int × String)) : List CocoCategory :=
  (sortInts (cm.map Prod.fst)).map (fun k =>
    { id := k, name := (alistGet cm k).getD "" })

/-- COCO export, from `ExportService.export_to_coco`.  As for CSV, the
file write happens strictly after every raise site, so an `.error` result
corresponds to a raise before any write. -/
def export_to_coco (images : List ImageMetadata) : Except ExportErr CocoDoc :=
  if images.isEmpty then .error .noImages
  else
    match cocoAnnsOf 1 (flatAnnsFrom 1 images) with
    | .error e => .error e
    | .ok anns =>
      if anns.isEmpty then .error .noAnnotations
      else
        .ok { images := cocoImagesOf images,
              annotations := anns,
              categories :=
                cocoCategoriesOf (categoriesMapOf [] (allAnns images)) }

/-- The `(label_id, label_name)` pairs actually used by the annotations of
an image list, in traversal order. -/
def usedLabelPairs (images : List ImageMetadata) : List (Int × String) :=
  (allAnns images).map (fun a => (a.label_id, a.label_name))

/-- The COCO bbox list of an annotation (empty when the box is absent). -/
def boxListOf (a : Annotation) : List Int :=
  match a.bounding_box with
  | none => []
  | some b => [b.x, b.y, b.width, b.height]

/-- A loaded COCO JSON object before validation: each of the three
required top-level keys may be missing (`_validate_coco_format` checks
their presence).  `bbox` values are kept integral: the import round-trip
only ever meets the integers the export wrote, and `int()` coercion of an
integral value is the identity. -/
structure CocoFile where
  images : Option (List CocoImage)
  annotations : Option (List CocoAnnotation)
  categories : Option (List CocoCategory)
deriving DecidableEq

/-- Wrapping an exported document as a loaded file (all keys present). -/
def cocoFileOf (doc : CocoDoc) : CocoFile :=
  { images := some doc.images, annotations := some doc.annotations,
    categories := some doc.categories }

/-- Errors of the import pipeline: the `ValueError` raised on a document
missing a required key (the spec's `FormatError`). -/
inductive ImportError where
  | formatError
deriving DecidableEq

/-- The three-tier image-file resolution of
`ImportService._match_images_to_files`, against an explicit filesystem
`fs` (the list of existing regular files): (1) `base / file_name`,
(2) `base / basename(file_name)`, (3) first file under `base` whose last
segment is the basename (`rglob`), else unresolved. -/
def match_image_file (fs : List FsPath) (base : FsPath) (fname : FsPath) :
    Option FsPath :=
  let cand1 := base ++ fname
  if fs.contains cand1 then some cand1
  else
    let basename := fname.getLastD ""
    let cand2 := base ++ [basename]
    if fs.contains cand2 then some cand2
    else
      match fs.filter (fun p =>
          base.isPrefixOf p && decide (p.getLastD "" = basename)) with
      | [] => none
      | m :: _ => some m

/-- The resolution fold over the declared images, building
`{coco_image_id: resolved_path}`; unresolved images are skipped. -/
def match_images_to_files (fs : List FsPath) (base : FsPath) :
    List (Int × FsPath) → List CocoImage → List (Int × FsPath)
  | acc, [] => acc
  | acc, ci :: rest =>
    match match_image_file fs base ci.file_name with
    | some p => match_images_to_files fs base (alistInsert acc ci.id p) rest
    | none => match_images_to_files fs base acc rest

/-- Left fold of the label-map dict comprehension. -/
def build_label_map_fold : List (Int × String) → List CocoCategory → List (Int × String)
  | acc, [] => acc
  | acc, c :: rest => build_label_map_fold (alistInsert acc c.id c.name) rest

/-- Label map from the categories section
(`ImportService._build_label_map`, a dict comprehension in order). -/
def build_label_map (cats : List CocoCategory) : List (Int × String) :=
  build_label_map_fold [] cats

/-- Internal bounding box from a COCO bbox list
(`int(bbox_coco[i])`, identity on the integral values modelled here). -/
def boxFromList (bbox : List Int) : BoundingBox :=
  { x := bbox.getD 0 0, y := bbox.getD 1 0,
    width := bbox.getD 2 0, height := bbox.getD 3 0 }

/-- Appending an annotation to its image's group
(`annotations_by_image[image_id].append`). -/
def insertGrouped (acc : List (Int × List Annotation)) (i : Int)
    (a : Annotation) : List (Int × List Annotation) :=
  match alistGet acc i with
  | some l => alistInsert acc i (l ++ [a])
  | none => acc ++ [(i, [a])]

/-- Conversion of the COCO annotations to internal records grouped by COCO
image id, from `ImportService._convert_annotations`; `fresh` supplies the
generated UUIDs (numbered in traversal order) and `t` the wall-clock time. -/
def convert_annotations (lm : List (Int × String)) (fresh : Nat → String)
    (t : Nat) : Nat → List (Int × List Annotation) → List CocoAnnotation →
    List (Int × List Annotation)
  | _, acc, [] => acc
  | n, acc, ca :: rest =>
    let a : Annotation :=
      { id := fresh n, bounding_box := some (boxFromList ca.bbox),
        label_id := ca.category_id,
        label_name := (alistGet lm ca.category_id).getD
          ("unknown_" ++ toString ca.category_id),
        image_id := "", created_at := t, modified_at := t }
    convert_annotations lm fresh t (n + 1) (insertGrouped acc ca.image_id a) rest

/-- Uppercased extension of a path's basename (`Path(...).suffix.upper().lstrip('.')`). -/
def formatOf (p : FsPath) : String :=
  match (p.getLastD "").splitOn "." with
  | [] => ""
  | [_] => ""
  | parts => (parts.getLastD "").toUpper

/-- The final image-assembly loop of `import_from_coco`: declared images
whose id resolved to a path become `ImageMetadata` (with a fresh internal
id) carrying their converted annotations; unresolved ones are dropped. -/
def buildImages (freshImg : Nat → String) (pmap : List (Int × FsPath))
    (grouped : List (Int × List Annotation)) :
    Nat → List CocoImage → List ImageMetadata
  | _, [] => []
  | n, ci :: rest =>
    match alistGet pmap ci.id with
    | none => buildImages freshImg pmap grouped n rest
    | some p =>
      { id := freshImg n, file_path := p, filename := ci.file_name,
        width := ci.width, height := ci.height,
        format := formatOf ci.file_name,
        annotations := (alistGet grouped ci.id).getD [] } ::
        buildImages freshImg pmap grouped (n + 1) rest

/-- COCO import, from `ImportService.import_from_coco`: key validation,
label map, base directory defaulting (the JSON file's directory `coco_dir`
unless overridden), image resolution, annotation conversion and image
assembly.  `fs` is the filesystem, `fresh`/`freshImg` the UUID supplies,
`t` the wall-clock time. -/
def import_from_coco (fs : List FsPath) (fresh freshImg : Nat → String)
    (t : Nat) (doc : CocoFile) (coco_dir : FsPath)
    (base_image_path : Option FsPath) :
    Except ImportError (List ImageMetadata × List (Int × String)) :=
  if doc.images.isSome ∧ doc.annotations.isSome ∧ doc.categories.isSome then
    let lm := build_label_map (doc.categories.getD [])
    let base := base_image_path.getD coco_dir
    let pmap := match_images_to_files fs base [] (doc.images.getD [])
    let grouped := convert_annotations lm fresh t 0 [] (doc.annotations.getD [])
    .ok (buildImages freshImg pmap grouped 0 (doc.images.getD []), lm)
  else .error .formatError

/-- The cached view state of the canvas, from `image_canvas.ImageCanvas`.
The float `_scale_factor = pixmap.width / scaled_pixmap.width` is carried
as the exact ratio `scale_num / scale_den` (its exact value whenever the
float arithmetic involved is exact, as in every state considered here);
the centering offsets and natural pixmap dimensions are integers as in the
source. -/
structure CanvasView where
  scale_num : Int
  scale_den : Int
  image_offset_x : Int
  image_offset_y : Int
  pix_width : Int
  pix_height : Int
deriving DecidableEq

/-- Python's `int(a / b)` on an exact quotient: truncation toward zero. -/
def intTrunc (a b : Int) : Int :=
  Int.sign a * Int.sign b * ((a.natAbs / b.natAbs : Nat) : Int)

/-- `int(v * scale_factor)` with the exact rational scale. -/
def scaleUp (c : CanvasView) (v : Int) : Int :=
  intTrunc (v * c.scale_num) c.scale_den

/-- `int(v / scale_factor)` with the exact rational scale. -/
def scaleDown (c : CanvasView) (v : Int) : Int :=
  intTrunc (v * c.scale_den) c.scale_num

/-- Widget-to-image conversion of two drag corners, from
`ImageCanvas._create_bounding_box`: normalize the corners, scale the
offset-relative coordinates up, then clamp into the image bounds. -/
def create_bounding_box (c : CanvasView) (sx sy ex ey : Int) : BoundingBox :=
  let x := min sx ex
  let y := min sy ey
  let w := max (ex - sx) (sx - ex)
  let h := max (ey - sy) (sy - ey)
  let x_img := scaleUp c (x - c.image_offset_x)
  let y_img := scaleUp c (y - c.image_offset_y)
  let w_img := scaleUp c w
  let h_img := scaleUp c h
  let x2 := max 0 (min x_img c.pix_width)
  let y2 := max 0 (min y_img c.pix_height)
  { x := x2, y := y2,
    width := min w_img (c.pix_width - x2),
    height := min h_img (c.pix_height - y2) }

/-- Image-to-widget conversion, from `ImageCanvas._image_to_widget_coords`. -/
def image_to_widget_coords (c : CanvasView) (box : BoundingBox) : BoundingBox :=
  { x := scaleDown c box.x + c.image_offset_x,
    y := scaleDown c box.y + c.image_offset_y,
    width := scaleDown c box.width,
    height := scaleDown c box.height }

/-- The view state of the spec's transform scenario: a 1000 by 800 image
shown at 500 by 400 inside a 600 by 500 viewport, as `_update_scaled_pixmap`
computes it (integer-halved centering offsets, scale 1000 / 500 = 2
exactly). -/
def demoCanvas : CanvasView :=
  { scale_num := 1000, scale_den := 500,
    image_offset_x := (600 - 500) / 2,
    image_offset_y := (500 - 400) / 2,
    pix_width := 1000, pix_height := 800 }

/-- A concrete image carrying two annotations that share label id 1 under
two different names. -/
def dupLabelImg : ImageMetadata :=
  { id := "i2", file_path := [], filename := ["b.png"], width := 10,
    height := 10, format := "PNG",
    annotations := [{ id := "x1",
                      bounding_box := some { x := 0, y := 0, width := 2, height := 2 },
                      label_id := 1, label_name := "a", image_id := "i2",
                      created_at := 0, modified_at := 0 },
                    { id := "x2",
                      bounding_box := some { x := 0, y := 0, width := 2, height := 2 },
                      label_id := 1, label_name := "b", image_id := "i2",
                      created_at := 0, modified_at := 0 }] }

/-- A small image record used by the concrete navigator scenarios. -/
def demoImg (s : String) : ImageMetadata :=
  { id := s, file_path := [], filename := [s], width := 1, height := 1,
    format := "", annotations := [] }

/-- A 3-image collection whose cursor was moved to the last image by
`goto_image`. -/
def demoManager3 : ImageManager :=
  (goto_image
    (add_image
      (add_image
        (add_image emptyImageManager [] (demoImg "p")).1 [] (demoImg "q")).1
      [] (demoImg "r")).1 "r").1

/-- A collection holding a single image. -/
def demoManager1 : ImageManager :=
  (add_image emptyImageManager [] (demoImg "only")).1

/-- A concrete one-image, one-annotation collection for the round-trip
scenario; its file resolves directly under the base directory `d`. -/
def rtImg : ImageMetadata :=
  { id := "r1", file_path := ["d", "a.jpg"], filename := ["a.jpg"], width := 20,
    height := 10, format := "JPG",
    annotations := [{ id := "ra",
                      bounding_box := some { x := 1, y := 2, width := 3, height := 4 },
                      label_id := 7, label_name := "cat", image_id := "r1",
                      created_at := 0, modified_at := 0 }] }

/-- Concatenation of the per-image annotation groups in declared-image
order: the annotation content of the images the import assembles. -/
def groupedConcat (grouped : List (Int × List Annotation)) :
    List CocoImage → List Annotation
  | [] => []
  | ci :: rest => (alistGet grouped ci.id).getD [] ++ groupedConcat grouped rest

/-- Concatenation of the slices of a COCO annotation list filtered by a
sequence of image ids. -/
def filterConcatByIds (cas : List CocoAnnotation) : List Int → List CocoAnnotation
  | [] => []
  | k :: ks => cas.filter (fun ca => ca.image_id == k) ++ filterConcatByIds cas ks

/-- A concrete filesystem for the import scenarios: one file directly
under the base directory and one deeper in its tree. -/
def fsW : List FsPath :=
  [["base", "cat.jpg"], ["base", "other", "dog.png"]]

/-- A concrete COCO file declaring three images: one resolvable by tier 2
(bare filename under the base), one unresolvable, one resolvable only by
tier 3 (recursive search). -/
def docW : CocoFile :=
  { images := some [{ id := 1, file_name := ["sub", "cat.jpg"], width := 5, height := 5 },
                    { id := 2, file_name := ["missing.jpg"], width := 5, height := 5 },
                    { id := 3, file_name := ["deep", "dog.png"], width := 4, height := 4 }],
    annotations := some [],
    categories := some [] }

theorem alistGet_insert_self {κ α : Type} [DecidableEq κ]
    (m : List (κ × α)) (k : κ) (v : α) :
    alistGet (alistInsert m k v) k = some v := by
  induction m with
  | nil => simp [alistInsert, alistGet]
  | cons p rest ih =>
    obtain ⟨k0, v0⟩ := p
    by_cases h : k0 = k
    · simp [alistInsert, alistGet, h]
    · simp [alistInsert, alistGet, h, ih]

theorem alistGet_insert_ne {κ α : Type} [DecidableEq κ]
    (m : List (κ × α)) (k k' : κ) (v : α) (hne : k' ≠ k) :
    alistGet (alistInsert m k v) k' = alistGet m k' := by
  have hne' : ¬ k = k' := fun h => hne h.symm
  induction m with
  | nil => simp [alistInsert, alistGet, hne']
  | cons p rest ih =>
    obtain ⟨k0, v0⟩ := p
    by_cases h : k0 = k
    · subst h
      simp [alistInsert, alistGet, hne']
    · simp [alistInsert, alistGet, h, ih]

theorem alistGet_insert_isSome {κ α : Type} [DecidableEq κ]
    (m : List (κ × α)) (k k' : κ) (v : α)
    (h : (alistGet m k').isSome) :
    (alistGet (alistInsert m k v) k').isSome := by
  by_cases hk : k' = k
  · subst hk
    simp [alistGet_insert_self]
  · rw [alistGet_insert_ne m k k' v hk]
    exact h

theorem alistGet_isSome_iff_mem {κ α : Type} [DecidableEq κ]
    (m : List (κ × α)) (k : κ) :
    (alistGet m k).isSome ↔ k ∈ m.map Prod.fst := by
  induction m with
  | nil => simp [alistGet]
  | cons p rest ih =>
    obtain ⟨k0, v0⟩ := p
    by_cases h : k0 = k
    · simp [alistGet, h]
    · have h2 : ¬ k = k0 := fun hh => h hh.symm
      simp [alistGet, h, h2, ih]

theorem alistGet_append_left {κ α : Type} [DecidableEq κ]
    (m m' : List (κ × α)) (k : κ) (h : (alistGet m k).isSome) :
    alistGet (m ++ m') k = alistGet m k := by
  induction m with
  | nil => simp [alistGet] at h
  | cons p rest ih =>
    obtain ⟨k0, v0⟩ := p
    by_cases hk : k0 = k
    · simp [alistGet, hk]
    · rw [alistGet, if_neg hk] at h
      rw [List.cons_append, alistGet, if_neg hk, alistGet, if_neg hk]
      exact ih h

theorem alistGet_append_right {κ α : Type} [DecidableEq κ]
    (m m' : List (κ × α)) (k : κ) (h : alistGet m k = none) :
    alistGet (m ++ m') k = alistGet m' k := by
  induction m with
  | nil => simp [alistGet]
  | cons p rest ih =>
    obtain ⟨k0, v0⟩ := p
    by_cases hk : k0 = k
    · rw [alistGet, if_pos hk] at h
      exact absurd h (by simp)
    · rw [alistGet, if_neg hk] at h
      rw [List.cons_append, alistGet, if_neg hk]
      exact ih h

theorem alistInsert_keys {κ α : Type} [DecidableEq κ]
    (m : List (κ × α)) (k : κ) (v : α) :
    (alistInsert m k v).map Prod.fst =
      if k ∈ m.map Prod.fst then m.map Prod.fst else m.map Prod.fst ++ [k] := by
  induction m with
  | nil => simp [alistInsert]
  | cons p rest ih =>
    obtain ⟨k0, v0⟩ := p
    by_cases h : k0 = k
    · subst h
      simp [alistInsert]
    · by_cases hmem : k ∈ rest.map Prod.fst <;>
        simp [alistInsert, h, ih, hmem, Ne.symm h]

theorem alistInsert_keys_nodup {κ α : Type} [DecidableEq κ]
    (m : List (κ × α)) (k : κ) (v : α)
    (h : (m.map Prod.fst).Nodup) :
    ((alistInsert m k v).map Prod.fst).Nodup := by
  rw [alistInsert_keys]
  by_cases hmem : k ∈ m.map Prod.fst
  · simpa [hmem] using h
  · simp only [hmem, if_false]
    simpa [List.nodup_append, hmem] using h

theorem validate_false_iff (a : Annotation) :
    ( validate_annotation a).1 = false ↔
      (a.label_id ≤ 0 ∨ strip_empty a.label_name = true ∨ a.bounding_box = none ∨
        ∃ b, a.bounding_box = some b ∧ (b.width ≤ 0 ∨ b.height ≤ 0)) := by
  rcases a with ⟨i, bb, lid, lname, im, c, m⟩
  simp only [ validate_annotation]
  by_cases h1 : lid ≤ 0
  · simp [h1]
  · by_cases h2 : lname = "" ∨ strip_empty lname
    · have h2' : strip_empty lname = true := by
        rcases h2 with h | h
        · subst h; rfl
        · exact h
      simp [h1, h2, h2']
    · rw [not_or] at h2
      obtain ⟨h2a, h2b⟩ := h2
      have h2b' : ¬ strip_empty lname = true := h2b
      rcases bb with _ | b
      · simp [h1, h2a, h2b']
      · by_cases h3 : b.width ≤ 0 ∨ b.height ≤ 0
        · simp [h1, h2a, h2b', h3]
        · simp [h1, h2a, h2b', h3]

/-- C2: with validation enabled, `create_annotation` fails (raises
`ValidationError`) exactly when `label_id` is nonpositive, the label name
is empty or whitespace-only, the box is absent, or the box has a
nonpositive width or height; whenever it fails the store is returned
unchanged; with validation disabled at construction time it never fails
on these inputs. -/
theorem create_validation_spec (mgr : AnnotationManager) (fid : String) (now : Nat)
    (imgid : String) (box : Option BoundingBox) (lid : Int) (lname : String) :
    (mgr.validation_enabled = true →
      ((∃ msg, ( create_annotation mgr fid now imgid box lid lname).2 = .error msg) ↔
        (lid ≤ 0 ∨ strip_empty lname = true ∨ box = none ∨
          ∃ b, box = some b ∧ (b.width ≤ 0 ∨ b.height ≤ 0))))
    ∧ (∀ msg, ( create_annotation mgr fid now imgid box lid lname).2 = .error msg →
        ( create_annotation mgr fid now imgid box lid lname).1 = mgr)
    ∧ (mgr.validation_enabled = false →
        ∃ a, ( create_annotation mgr fid now imgid box lid lname).2 = .ok a) := by
  have hiff := validate_false_iff
      { id := fid, bounding_box := box, label_id := lid, label_name := lname,
        image_id := imgid, created_at := now, modified_at := now }
  rcases hva : validate_annotation
      { id := fid, bounding_box := box, label_id := lid, label_name := lname,
        image_id := imgid, created_at := now, modified_at := now } with ⟨ok, msg⟩
  rw [hva] at hiff
  by_cases hv : mgr.validation_enabled = true
  · cases ok
    · refine ⟨fun _ => ?_, fun m hm => ?_, fun hvf => ?_⟩
      · simp only [ create_annotation, hv, if_true, hva]
        constructor
        · intro _
          exact hiff.mp rfl
        · intro _
          exact ⟨_, rfl⟩
      · simp only [ create_annotation, hv, if_true, hva]
      · rw [hvf] at hv
        cases hv
    · refine ⟨fun _ => ?_, fun m hm => ?_, fun hvf => ?_⟩
      · simp only [ create_annotation, hv, if_true, hva]
        constructor
        · intro ⟨m, hm⟩
          cases hm
        · intro hcond
          exact absurd (hiff.mpr hcond) (by simp)
      · rw [ create_annotation] at hm
        simp only [hv, if_true, hva] at hm
        exact absurd hm (by simp)
      · rw [hvf] at hv
        cases hv
  · have hvf : mgr.validation_enabled = false := by
      cases hb : mgr.validation_enabled
      · rfl
      · exact absurd hb hv
    refine ⟨fun hvt => absurd hvt hv, fun m hm => ?_, fun _ => ?_⟩
    · rw [ create_annotation] at hm
      simp only [hvf, Bool.false_eq_true, if_false] at hm
      exact absurd hm (by simp)
    · rw [ create_annotation]
      simp only [hvf, Bool.false_eq_true, if_false]
      exact ⟨_, rfl⟩

/-- Witness for C2 at a concrete input: creating with `label_id = 0` on a
validating empty store fails and leaves the store empty. -/
theorem create_validation_spec_witness :
    (∃ msg, ( create_annotation { annotations := [], validation_enabled := true }
        "u1" 5 "img" (some { x := 0, y := 0, width := 3, height := 4 }) 0 "cat").2
        = .error msg)
    ∧ ( create_annotation { annotations := [], validation_enabled := true }
        "u1" 5 "img" (some { x := 0, y := 0, width := 3, height := 4 }) 0 "cat").1
        = { annotations := [], validation_enabled := true } := by
  have h := create_validation_spec { annotations := [], validation_enabled := true }
      "u1" 5 "img" (some { x := 0, y := 0, width := 3, height := 4 }) 0 "cat"
  have herr := (h.1 rfl).mpr (Or.inl (by decide))
  obtain ⟨msg, hmsg⟩ := herr
  exact ⟨⟨msg, hmsg⟩, h.2.1 msg hmsg⟩

/-- C8: `update_annotation` returns false exactly on an unknown id (and
then mutates nothing); on a known id it returns true, the label pair is
applied only when both parts are supplied, the box independently of the
labels, and applying either bumps `modified_at` to the current time. -/
theorem update_ann_spec (mgr : AnnotationManager) (now : Nat) (aid : String)
    (box : Option BoundingBox) (lid : Option Int) (lname : Option String) :
    (alistGet mgr.annotations aid = none →
      update_annotation mgr now aid box lid lname = (mgr, false))
    ∧ ∀ a, alistGet mgr.annotations aid = some a →
        ( update_annotation mgr now aid box lid lname).2 = true ∧
        ∃ a2, alistGet ( update_annotation mgr now aid box lid lname).1.annotations aid
            = some a2 ∧
          a2.id = a.id ∧ a2.image_id = a.image_id ∧ a2.created_at = a.created_at ∧
          (∀ b, box = some b → a2.bounding_box = some b) ∧
          (box = none → a2.bounding_box = a.bounding_box) ∧
          (∀ i n, lid = some i → lname = some n → a2.label_id = i ∧ a2.label_name = n) ∧
          ((lid = none ∨ lname = none) →
            a2.label_id = a.label_id ∧ a2.label_name = a.label_name) ∧
          a2.modified_at =
            (if box.isSome || (lid.isSome && lname.isSome) then now else a.modified_at) := by
  constructor
  · intro hnone
    rw [ update_annotation, hnone]
  · intro a ha
    rw [ update_annotation, ha]
    refine ⟨rfl, ?_⟩
    rcases box with _ | b <;> rcases lid with _ | i <;> rcases lname with _ | n <;>
      refine ⟨_, alistGet_insert_self mgr.annotations aid _, ?_⟩ <;>
      simp

/-- Witness for C8 at a concrete input: updating a stored annotation with a
new box and only a label name (no label id) applies the box, leaves both
label fields unchanged, and bumps `modified_at`. -/
theorem update_ann_spec_witness :
    ( update_annotation
        { annotations := [("a1",
            { id := "a1", bounding_box := some { x := 1, y := 2, width := 3, height := 4 },
              label_id := 5, label_name := "cat", image_id := "i",
              created_at := 0, modified_at := 0 })],
          validation_enabled := true } 9 "a1"
        (some { x := 7, y := 7, width := 7, height := 7 }) none (some "dog")).2 = true ∧
    ∃ a2, alistGet ( update_annotation
        { annotations := [("a1",
            { id := "a1", bounding_box := some { x := 1, y := 2, width := 3, height := 4 },
              label_id := 5, label_name := "cat", image_id := "i",
              created_at := 0, modified_at := 0 })],
          validation_enabled := true } 9 "a1"
        (some { x := 7, y := 7, width := 7, height := 7 }) none (some "dog")).1.annotations "a1"
      = some a2 ∧
      a2.bounding_box = some { x := 7, y := 7, width := 7, height := 7 } ∧
      a2.label_id = 5 ∧ a2.label_name = "cat" ∧ a2.modified_at = 9 := by
  have h := (update_ann_spec
      { annotations := [("a1",
          { id := "a1", bounding_box := some { x := 1, y := 2, width := 3, height := 4 },
            label_id := 5, label_name := "cat", image_id := "i",
            created_at := 0, modified_at := 0 })],
        validation_enabled := true } 9 "a1"
      (some { x := 7, y := 7, width := 7, height := 7 }) none (some "dog")).2
      { id := "a1", bounding_box := some { x := 1, y := 2, width := 3, height := 4 },
        label_id := 5, label_name := "cat", image_id := "i",
        created_at := 0, modified_at := 0 } (by decide)
  obtain ⟨ht, a2, hget, hid, him, hc, hbs, hbn, hlp, hln, hm⟩ := h
  refine ⟨ht, a2, hget, hbs _ rfl, (hln (Or.inl rfl)).1, (hln (Or.inl rfl)).2, ?_⟩
  rw [hm]
  decide

/-- C7: `remove_image` on a present id removes it and clamps the cursor to
`min(cursor, count - 1)` over the post-removal count, or to the -1
sentinel when the collection empties; on an absent id it returns false and
changes nothing. -/
theorem remove_image_cursor_spec (mgr : ImageManager) (iid : String) :
    (alistGet mgr.images iid = none → remove_image mgr iid = (mgr, false))
    ∧ ∀ md, alistGet mgr.images iid = some md →
        ( remove_image mgr iid).2 = true ∧
        ( remove_image mgr iid).1.image_order = mgr.image_order.erase iid ∧
        ( remove_image mgr iid).1.images = mgr.images.filter (fun p => p.1 ≠ iid) ∧
        ( remove_image mgr iid).1.current_index =
          (if (mgr.image_order.erase iid).length = 0 then (-1 : Int)
           else min mgr.current_index (((mgr.image_order.erase iid).length : Int) - 1)) := by
  constructor
  · intro h
    rw [remove_image, h]
  · intro md h
    simp only [remove_image, h]
    refine ⟨trivial, trivial, trivial, ?_⟩
    by_cases h0 : (mgr.image_order.erase iid).length = 0
    · simp [h0]
    · rw [if_neg h0, if_neg h0]
      by_cases hge : mgr.current_index ≥ ((mgr.image_order.erase iid).length : Int)
      · rw [if_pos hge, min_def, if_neg (by omega)]
        omega
      · rw [if_neg hge, min_def, if_pos (by omega)]

/-- Witness for C7 at the spec's scenario: on a 3-image collection with the
cursor moved to the last image, removing that image leaves the cursor at
index 1; removing the sole image of a 1-image collection leaves the -1
sentinel. -/
theorem remove_image_cursor_spec_witness :
    demoManager3.current_index = 2 ∧
    ( remove_image demoManager3 "r").2 = true ∧
    ( remove_image demoManager3 "r").1.current_index = 1 ∧
    ( remove_image demoManager1 "only").1.current_index = -1 := by
  have h3 := (remove_image_cursor_spec demoManager3 "r").2 (demoImg "r") (by decide)
  have h1 := (remove_image_cursor_spec demoManager1 "only").2 (demoImg "only") (by decide)
  refine ⟨by decide, h3.1, ?_, ?_⟩
  · rw [h3.2.2.2]
    decide
  · rw [h1.2.2.2]
    decide

/-- C9 is false as stated: `add_label` does not reject a duplicate label
name (two ids may map to the same name), and a duplicate id is silently
overwritten rather than rejected. -/
theorem label_registry_uniqueness_counterex :
    add_label (add_label [] 1 "cat") 2 "cat" = [(1, "cat"), (2, "cat")] ∧
    ¬ ((add_label (add_label [] 1 "cat") 2 "cat").map Prod.snd).Nodup ∧
    add_label (add_label [] 1 "cat") 1 "dog" = [(1, "dog")] := by
  decide

/-- C9 amended: the registry's dictionary keeps label ids unique (a
duplicate id overwrites the existing entry's name in place rather than
being rejected), but label-name uniqueness is not enforced. -/
theorem label_registry_unique_ids (m : List (Int × String)) (k : Int) (v : String)
    (h : (m.map Prod.fst).Nodup) :
    ((add_label m k v).map Prod.fst).Nodup ∧
    alistGet (add_label m k v) k = some v ∧
    set_labels m = m :=
  ⟨alistInsert_keys_nodup m k v h, alistGet_insert_self m k v, rfl⟩

/-- Witness for the amended C9 at a concrete registry. -/
theorem label_registry_unique_ids_witness :
    (((add_label [(1, "cat")] 2 "dog").map Prod.fst).Nodup ∧
      alistGet (add_label [(1, "cat")] 2 "dog") 2 = some "dog" ∧
      set_labels [(1, "cat")] = [(1, "cat")]) :=
  label_registry_unique_ids [(1, "cat")] 2 "dog" (by decide)

/-- C5: in the 1000 by 800 image displayed at 500 by 400 inside a 600 by
500 viewport (scale factor 2, centering offset (50, 50)), converting the
image point (100, 100) to display coordinates and back through the drag
conversion lands within one pixel of (100, 100) on each axis. -/
theorem transform_round_trip_demo :
    (( create_bounding_box demoCanvas
        (image_to_widget_coords demoCanvas { x := 100, y := 100, width := 0, height := 0 }).x
        (image_to_widget_coords demoCanvas { x := 100, y := 100, width := 0, height := 0 }).y
        (image_to_widget_coords demoCanvas { x := 100, y := 100, width := 0, height := 0 }).x
        (image_to_widget_coords demoCanvas { x := 100, y := 100, width := 0, height := 0 }).y).x
      - 100 ≤ 1 ∧
     100 - ( create_bounding_box demoCanvas
        (image_to_widget_coords demoCanvas { x := 100, y := 100, width := 0, height := 0 }).x
        (image_to_widget_coords demoCanvas { x := 100, y := 100, width := 0, height := 0 }).y
        (image_to_widget_coords demoCanvas { x := 100, y := 100, width := 0, height := 0 }).x
        (image_to_widget_coords demoCanvas { x := 100, y := 100, width := 0, height := 0 }).y).x
      ≤ 1) ∧
    (( create_bounding_box demoCanvas
        (image_to_widget_coords demoCanvas { x := 100, y := 100, width := 0, height := 0 }).x
        (image_to_widget_coords demoCanvas { x := 100, y := 100, width := 0, height := 0 }).y
        (image_to_widget_coords demoCanvas { x := 100, y := 100, width := 0, height := 0 }).x
        (image_to_widget_coords demoCanvas { x := 100, y := 100, width := 0, height := 0 }).y).y
      - 100 ≤ 1 ∧
     100 - ( create_bounding_box demoCanvas
        (image_to_widget_coords demoCanvas { x := 100, y := 100, width := 0, height := 0 }).x
        (image_to_widget_coords demoCanvas { x := 100, y := 100, width := 0, height := 0 }).y
        (image_to_widget_coords demoCanvas { x := 100, y := 100, width := 0, height := 0 }).x
        (image_to_widget_coords demoCanvas { x := 100, y := 100, width := 0, height := 0 }).y).y
      ≤ 1) := by
  decide

theorem csvPairs_nil_of_allAnns (images : List ImageMetadata)
    (h : allAnns images = []) : csvPairs images = [] := by
  induction images with
  | nil => rfl
  | cons img rest ih =>
    rw [allAnns, List.append_eq_nil] at h
    rw [csvPairs, h.1, ih h.2]
    rfl

theorem flatAnnsFrom_nil_of_allAnns (s : Nat) (images : List ImageMetadata)
    (h : allAnns images = []) : flatAnnsFrom s images = [] := by
  induction images generalizing s with
  | nil => rfl
  | cons img rest ih =>
    rw [allAnns, List.append_eq_nil] at h
    rw [flatAnnsFrom, h.1, ih (s + 1) h.2]
    rfl

/-- C6: both exports fail with an empty-export error when the image list
is empty or carries zero annotations in total; in the error case the
document value is never produced, so no file write occurs (both raise
sites precede the write in the source). -/
theorem export_empty_spec (images : List ImageMetadata)
    (h : images = [] ∨ allAnns images = []) :
    (∃ e, export_to_csv images = .error e ∧ ExportErr.isEmptyExport e = true) ∧
    (∃ e, export_to_coco images = .error e ∧ ExportErr.isEmptyExport e = true) := by
  by_cases he : images = []
  · subst he
    exact ⟨⟨.noImages, rfl, rfl⟩, ⟨.noImages, rfl, rfl⟩⟩
  · have hz : allAnns images = [] := by
      rcases h with h | h
      · exact absurd h he
      · exact h
    have hcsv : csvPairs images = [] := csvPairs_nil_of_allAnns images hz
    have hfa : flatAnnsFrom 1 images = [] := flatAnnsFrom_nil_of_allAnns 1 images hz
    have hne : images.isEmpty = false := by
      cases images with
      | nil => exact absurd rfl he
      | cons a l => rfl
    refine ⟨⟨.noAnnotations, ?_, rfl⟩, ⟨.noAnnotations, ?_, rfl⟩⟩
    · rw [export_to_csv, hne]
      simp [hcsv, csvRowsOf]
    · rw [export_to_coco, hne]
      simp [hfa, cocoAnnsOf]

/-- Witness for C6: a nonempty image list with zero annotations makes both
exports fail with an empty-export error. -/
theorem export_empty_spec_witness :
    (∃ e, export_to_csv [demoImg "w"] = .error e ∧ ExportErr.isEmptyExport e = true) ∧
    (∃ e, export_to_coco [demoImg "w"] = .error e ∧ ExportErr.isEmptyExport e = true) :=
  export_empty_spec [demoImg "w"] (Or.inr rfl)

theorem csvRowsOf_error_of_missing_box (l : List (ImageMetadata × Annotation))
    (h : ∃ p ∈ l, p.2.bounding_box = none) :
    csvRowsOf l = .error .attributeError := by
  induction l with
  | nil => simp at h
  | cons p rest ih =>
    obtain ⟨img, a⟩ := p
    rcases hb : a.bounding_box with _ | b
    · simp only [csvRowsOf, hb]
    · obtain ⟨q, hq, hqn⟩ := h
      have hrest : ∃ p ∈ rest, p.2.bounding_box = none := by
        rcases List.mem_cons.mp hq with rfl | hq'
        · exact absurd hqn (by rw [hb]; intro bad; cases bad)
        · exact ⟨q, hq', hqn⟩
      simp only [csvRowsOf, hb, ih hrest]

theorem csvPairs_missing_box (images : List ImageMetadata)
    (h : ∃ img ∈ images, ∃ a ∈ img.annotations, a.bounding_box = none) :
    ∃ p ∈ csvPairs images, p.2.bounding_box = none := by
  induction images with
  | nil => simp at h
  | cons img rest ih =>
    obtain ⟨i, hi, a, ha, hn⟩ := h
    rcases List.mem_cons.mp hi with rfl | hi'
    · refine ⟨(i, a), ?_, hn⟩
      rw [csvPairs]
      exact List.mem_append_left _ (List.mem_map_of_mem _ ha)
    · obtain ⟨p, hp, hpn⟩ := ih ⟨i, hi', a, ha, hn⟩
      refine ⟨p, ?_, hpn⟩
      rw [csvPairs]
      exact List.mem_append_right _ hp

/-- C10: with validation disabled, an annotation without a bounding box is
accepted by `create_annotation`; CSV export of a nonempty image list that
contains such an annotation fails with the uncaught attribute error (not
an empty-export or validation error). -/
theorem csv_requires_boxes (mgr : AnnotationManager)
    (hv : mgr.validation_enabled = false) (fid : String) (now : Nat)
    (imgid : String) (lid : Int) (lname : String)
    (images : List ImageMetadata) (hne : images ≠ [])
    (hmiss : ∃ img ∈ images, ∃ a ∈ img.annotations, a.bounding_box = none) :
    (∃ a, ( create_annotation mgr fid now imgid none lid lname).2 = .ok a ∧
      a.bounding_box = none) ∧
    export_to_csv images = .error .attributeError ∧
    ExportErr.isEmptyExport .attributeError = false := by
  refine ⟨?_, ?_, rfl⟩
  · rw [ create_annotation]
    simp only [hv, Bool.false_eq_true, if_false]
    exact ⟨_, rfl, rfl⟩
  · have herr := csvRowsOf_error_of_missing_box _ (csvPairs_missing_box images hmiss)
    have hne' : images.isEmpty = false := by
      cases images with
      | nil => exact absurd rfl hne
      | cons a l => rfl
    rw [export_to_csv, hne']
    simp [herr]

/-- Witness for C10 at a concrete input: a box-less annotation created on
a non-validating store and attached to an image crashes the CSV export
with the attribute error. -/
theorem csv_requires_boxes_witness :
    (∃ a, ( create_annotation { annotations := [], validation_enabled := false }
        "u9" 3 "i9" none 1 "cat").2 = .ok a ∧ a.bounding_box = none) ∧
    export_to_csv
      [{ id := "i9", file_path := [], filename := ["c.bmp"], width := 5,
          height := 5, format := "BMP",
          annotations := [{ id := "u9", bounding_box := none, label_id := 1,
                            label_name := "cat", image_id := "i9",
                            created_at := 3, modified_at := 3 }] }]
      = .error .attributeError ∧
    ExportErr.isEmptyExport .attributeError = false := by
  exact csv_requires_boxes { annotations := [], validation_enabled := false }
    rfl "u9" 3 "i9" 1 "cat"
    [{ id := "i9", file_path := [], filename := ["c.bmp"], width := 5,
        height := 5, format := "BMP",
        annotations := [{ id := "u9", bounding_box := none, label_id := 1,
                          label_name := "cat", image_id := "i9",
                          created_at := 3, modified_at := 3 }] }]
    (by intro h; cases h)
    ⟨_, List.mem_singleton_self _, _, List.mem_singleton_self _, rfl⟩

theorem insertSorted_perm (k : Int) (l : List Int) :
    List.Perm (insertSorted k l) (k :: l) := by
  induction l with
  | nil => exact List.Perm.refl _
  | cons x xs ih =>
    by_cases hk : k ≤ x
    · rw [insertSorted, if_pos hk]
    · rw [insertSorted, if_neg hk]
      exact (ih.cons x).trans (List.Perm.swap k x xs)

theorem sortInts_perm (l : List Int) : List.Perm (sortInts l) l := by
  induction l with
  | nil => exact List.Perm.refl _
  | cons x xs ih => exact (insertSorted_perm x (sortInts xs)).trans (ih.cons x)

theorem insertSorted_sorted (k : Int) (l : List Int)
    (h : l.Pairwise (· ≤ ·)) : (insertSorted k l).Pairwise (· ≤ ·) := by
  induction l with
  | nil => simp [insertSorted]
  | cons x xs ih =>
    rw [List.pairwise_cons] at h
    obtain ⟨hx, hxs⟩ := h
    by_cases hk : k ≤ x
    · rw [insertSorted, if_pos hk]
      refine List.pairwise_cons.mpr ⟨?_, List.pairwise_cons.mpr ⟨hx, hxs⟩⟩
      intro b hb
      rcases List.mem_cons.mp hb with rfl | hb'
      · exact hk
      · exact le_trans hk (hx b hb')
    · rw [insertSorted, if_neg hk]
      refine List.pairwise_cons.mpr ⟨?_, ih hxs⟩
      intro b hb
      have hmem := (insertSorted_perm k xs).mem_iff.mp hb
      rcases List.mem_cons.mp hmem with rfl | hb'
      · exact le_of_not_le hk
      · exact hx b hb'

theorem sortInts_sorted (l : List Int) : (sortInts l).Pairwise (· ≤ ·) := by
  induction l with
  | nil => simp [sortInts]
  | cons x xs ih => exact insertSorted_sorted x (sortInts xs) ih

theorem categoriesMapOf_get (l : List Annotation) (cm : List (Int × String)) (k : Int) :
    alistGet (categoriesMapOf cm l) k =
      (match alistGet cm k with
       | some v => some v
       | none => (l.find? (fun a => a.label_id == k)).map (fun a => a.label_name)) := by
  induction l generalizing cm with
  | nil => cases h : alistGet cm k <;> simp [categoriesMapOf, h]
  | cons a rest ih =>
    rw [categoriesMapOf]
    by_cases hmem : (alistGet cm a.label_id).isSome
    · rw [if_pos hmem, ih]
      cases hk : alistGet cm k with
      | some v => rfl
      | none =>
        have hne : ¬ a.label_id = k := by
          intro hkk
          rw [hkk, hk] at hmem
          cases hmem
        rw [List.find?_cons_of_neg _ (by simpa using hne)]
    · rw [if_neg hmem, ih]
      have hcmnone : alistGet cm a.label_id = none := by
        cases hv : alistGet cm a.label_id with
        | none => rfl
        | some v => rw [hv] at hmem; exact absurd rfl hmem
      by_cases hk : a.label_id = k
      · subst hk
        rw [hcmnone]
        rw [alistGet_append_right cm _ _ hcmnone]
        rw [List.find?_cons_of_pos _ (by simp)]
        simp [alistGet]
      · have hget : alistGet (cm ++ [(a.label_id, a.label_name)]) k = alistGet cm k := by
          cases hv : alistGet cm k with
          | some v =>
            rw [alistGet_append_left cm _ k (by rw [hv]; rfl)]
            exact hv
          | none =>
            rw [alistGet_append_right cm _ k hv]
            simp [alistGet, hk]
        rw [hget]
        cases hv : alistGet cm k with
        | some v => rfl
        | none => rw [List.find?_cons_of_neg _ (by simpa using hk)]

theorem categoriesMapOf_keys_isSome (l : List Annotation) (k : Int) :
    (alistGet (categoriesMapOf [] l) k).isSome ↔ ∃ a ∈ l, a.label_id = k := by
  rw [categoriesMapOf_get]
  show ((l.find? (fun a => a.label_id == k)).map (fun a => a.label_name)).isSome
    = true ↔ _
  constructor
  · intro hs
    cases hf : l.find? (fun a => a.label_id == k) with
    | none => simp [hf] at hs
    | some a =>
      have hmem := List.mem_of_find?_eq_some hf
      have hp := List.find?_some hf
      exact ⟨a, hmem, by simpa using hp⟩
  · intro hex
    obtain ⟨a, ha, hk⟩ := hex
    cases hf : l.find? (fun a => a.label_id == k) with
    | none =>
      rw [List.find?_eq_none] at hf
      exact absurd (by simp [hk] : (a.label_id == k) = true) (hf a ha)
    | some b => rfl

theorem categoriesMapOf_keys_nodup (l : List Annotation) (cm : List (Int × String))
    (h : (cm.map Prod.fst).Nodup) :
    ((categoriesMapOf cm l).map Prod.fst).Nodup := by
  induction l generalizing cm with
  | nil => exact h
  | cons a rest ih =>
    rw [categoriesMapOf]
    by_cases hmem : (alistGet cm a.label_id).isSome
    · rw [if_pos hmem]
      exact ih cm h
    · rw [if_neg hmem]
      refine ih _ ?_
      rw [List.map_append]
      rw [List.nodup_append]
      refine ⟨h, by simp, ?_⟩
      intro x hx hx'
      simp only [List.map_cons, List.map_nil, List.mem_singleton] at hx'
      subst hx'
      exact hmem ((alistGet_isSome_iff_mem cm a.label_id).mpr hx)

theorem withIdx_map_fst {α : Type} (s : Nat) (l : List α) :
    (withIdx s l).map Prod.fst = List.range' s l.length := by
  induction l generalizing s with
  | nil => rfl
  | cons x xs ih =>
    simp only [withIdx, List.map_cons, List.length_cons]
    rw [ih]
    rfl

theorem flatAnnsFrom_snd (s : Nat) (images : List ImageMetadata) :
    (flatAnnsFrom s images).map Prod.snd = allAnns images := by
  induction images generalizing s with
  | nil => rfl
  | cons img rest ih =>
    simp only [flatAnnsFrom, allAnns, List.map_append, List.map_map]
    rw [ih]
    congr 1
    simp

theorem flatAnnsFrom_box (s : Nat) (images : List ImageMetadata)
    (h : ∀ img ∈ images, ∀ a ∈ img.annotations, a.bounding_box.isSome) :
    ∀ p ∈ flatAnnsFrom s images, (p.2).bounding_box.isSome := by
  induction images generalizing s with
  | nil =>
    intro p hp
    simp [flatAnnsFrom] at hp
  | cons img rest ih =>
    intro p hp
    rw [flatAnnsFrom] at hp
    rcases List.mem_append.mp hp with hp' | hp'
    · obtain ⟨a, ha, rfl⟩ := List.mem_map.mp hp'
      exact h img (List.mem_cons_self _ _) a ha
    · exact ih (s + 1) (fun i hi => h i (List.mem_cons_of_mem _ hi)) p hp'

theorem cocoAnnsOf_ok (n : Nat) (l : List (Nat × Annotation))
    (h : ∀ p ∈ l, (p.2).bounding_box.isSome) :
    ∃ anns, cocoAnnsOf n l = .ok anns ∧
      anns.map (fun a => a.id) = List.map (fun k : Nat => (k : Int)) (List.range' n l.length) ∧
      anns.map (fun a => (a.image_id, a.category_id, a.bbox)) =
        l.map (fun p => ((p.1 : Int), p.2.label_id, boxListOf p.2)) ∧
      ∀ a ∈ anns, (∃ x y w h0, a.bbox = [x, y, w, h0] ∧ a.area = w * h0) ∧
        a.segmentation = [] ∧ a.iscrowd = 0 := by
  induction l generalizing n with
  | nil => exact ⟨[], rfl, rfl, rfl, by simp⟩
  | cons p rest ih =>
    obtain ⟨i, a⟩ := p
    have hbox := h (i, a) (List.mem_cons_self _ _)
    rcases hab : a.bounding_box with _ | b
    · rw [hab] at hbox
      cases hbox
    · obtain ⟨tail, htl, hids, hproj, hshape⟩ :=
        ih (n + 1) (fun q hq => h q (List.mem_cons_of_mem _ hq))
      refine ⟨{ id := (n : Int), image_id := (i : Int), category_id := a.label_id,
                bbox := [b.x, b.y, b.width, b.height], area := b.width * b.height,
                segmentation := [], iscrowd := 0 } :: tail, ?_, ?_, ?_, ?_⟩
      · simp only [cocoAnnsOf, hab, htl]
      · simp only [List.map_cons, List.length_cons]
        rw [hids]
        rfl
      · simp only [List.map_cons]
        rw [hproj]
        simp [boxListOf, hab]
      · intro x hx
        rcases List.mem_cons.mp hx with rfl | hx'
        · exact ⟨⟨b.x, b.y, b.width, b.height, rfl, rfl⟩, rfl, rfl⟩
        · exact hshape x hx'

/-- C3 amended: for a nonempty image list whose annotations all carry a
bounding box and number at least one, the exported COCO document has
1-based sequential image ids in input order, 1-based sequential annotation
ids in encounter order, `bbox = [x, y, width, height]` with
`area = width * height`, empty segmentation and `iscrowd = 0`, and a
category list with exactly one entry per distinct `label_id` actually
used, named after the first annotation encountered with that id, sorted
ascending by `label_id`. -/
theorem coco_export_spec (images : List ImageMetadata)
    (hne : images ≠ [])
    (hbox : ∀ img ∈ images, ∀ a ∈ img.annotations, a.bounding_box.isSome)
    (hM : allAnns images ≠ []) :
    ∃ doc, export_to_coco images = .ok doc ∧
      doc.images.map (fun ci => ci.id)
        = List.map (fun n : Nat => (n : Int)) (List.range' 1 images.length) ∧
      doc.annotations.map (fun a => a.id)
        = List.map (fun n : Nat => (n : Int)) (List.range' 1 (allAnns images).length) ∧
      doc.annotations.map (fun a => (a.category_id, a.bbox))
        = (allAnns images).map (fun a => (a.label_id, boxListOf a)) ∧
      (∀ a ∈ doc.annotations,
        (∃ x y w h0, a.bbox = [x, y, w, h0] ∧ a.area = w * h0) ∧
        a.segmentation = [] ∧ a.iscrowd = 0) ∧
      (doc.categories.map (fun c => c.id)).Pairwise (· ≤ ·) ∧
      (doc.categories.map (fun c => c.id)).Nodup ∧
      (∀ k, k ∈ doc.categories.map (fun c => c.id)
        ↔ ∃ a ∈ allAnns images, a.label_id = k) ∧
      (∀ c ∈ doc.categories,
        ((allAnns images).find? (fun a => a.label_id == c.id)).map
          (fun a => a.label_name) = some c.name) := by
  have hlen : (flatAnnsFrom 1 images).length = (allAnns images).length := by
    rw [← flatAnnsFrom_snd 1 images, List.length_map]
  obtain ⟨anns, hok, hids, hproj, hshape⟩ :=
    cocoAnnsOf_ok 1 (flatAnnsFrom 1 images) (flatAnnsFrom_box 1 images hbox)
  have hannsne : anns.isEmpty = false := by
    have hlanns : anns.length = (allAnns images).length := by
      rw [← List.length_map anns (fun a => a.id), hids, List.length_map,
        List.length_range', hlen]
    cases hanns : anns with
    | nil =>
      rw [hanns] at hlanns
      cases hall : allAnns images with
      | nil => exact absurd hall hM
      | cons y ys =>
        rw [hall] at hlanns
        simp at hlanns
    | cons y ys => rfl
  have hineb : images.isEmpty = false := by
    cases images with
    | nil => exact absurd rfl hne
    | cons i l => rfl
  refine ⟨{ images := cocoImagesOf images, annotations := anns,
            categories := cocoCategoriesOf (categoriesMapOf [] (allAnns images)) },
          ?_, ?_, ?_, ?_, ?_, ?_, ?_, ?_, ?_⟩
  · rw [export_to_coco, hineb]
    simp only [Bool.false_eq_true, if_false, hok, hannsne]
  · show (cocoImagesOf images).map (fun ci => ci.id) = _
    rw [cocoImagesOf, List.map_map]
    have : ((fun ci : CocoImage => ci.id) ∘ (fun p : Nat × ImageMetadata =>
        ({ id := (p.1 : Int), file_name := p.2.filename, width := p.2.width,
           height := p.2.height } : CocoImage)))
        = fun p : Nat × ImageMetadata => ((p.1 : Nat) : Int) := rfl
    rw [this]
    have h2 : (fun p : Nat × ImageMetadata => ((p.1 : Nat) : Int))
        = (fun n : Nat => (n : Int)) ∘ Prod.fst := rfl
    rw [h2, ← List.map_map, withIdx_map_fst]
  · show anns.map (fun a => a.id) = _
    rw [hids, hlen]
  · show anns.map (fun a => (a.category_id, a.bbox)) = _
    have h2 := congrArg
      (List.map (fun t : Int × Int × List Int => (t.2.1, t.2.2))) hproj
    rw [List.map_map, List.map_map] at h2
    have h3 : ((fun t : Int × Int × List Int => (t.2.1, t.2.2)) ∘
        (fun a : CocoAnnotation => (a.image_id, a.category_id, a.bbox)))
        = fun a : CocoAnnotation => (a.category_id, a.bbox) := rfl
    have h4 : ((fun t : Int × Int × List Int => (t.2.1, t.2.2)) ∘
        (fun p : Nat × Annotation => ((p.1 : Int), p.2.label_id, boxListOf p.2)))
        = (fun a : Annotation => (a.label_id, boxListOf a)) ∘ Prod.snd := rfl
    rw [h3, h4, ← List.map_map, flatAnnsFrom_snd] at h2
    exact h2
  · show ∀ a ∈ anns, _
    exact hshape
  · show ((cocoCategoriesOf _).map (fun c => c.id)).Pairwise (· ≤ ·)
    rw [cocoCategoriesOf, List.map_map]
    have h3 : ((fun c : CocoCategory => c.id) ∘ (fun k : Int =>
        ({ id := k, name := (alistGet (categoriesMapOf [] (allAnns images)) k).getD "" }
          : CocoCategory))) = fun k : Int => k := rfl
    rw [h3, List.map_id']
    exact sortInts_sorted _
  · show ((cocoCategoriesOf _).map (fun c => c.id)).Nodup
    rw [cocoCategoriesOf, List.map_map]
    have h3 : ((fun c : CocoCategory => c.id) ∘ (fun k : Int =>
        ({ id := k, name := (alistGet (categoriesMapOf [] (allAnns images)) k).getD "" }
          : CocoCategory))) = fun k : Int => k := rfl
    rw [h3, List.map_id']
    exact (sortInts_perm _).nodup_iff.mpr
      (categoriesMapOf_keys_nodup (allAnns images) [] (by simp))
  · intro k
    show k ∈ (cocoCategoriesOf _).map (fun c => c.id) ↔ _
    rw [cocoCategoriesOf, List.map_map]
    have h3 : ((fun c : CocoCategory => c.id) ∘ (fun k : Int =>
        ({ id := k, name := (alistGet (categoriesMapOf [] (allAnns images)) k).getD "" }
          : CocoCategory))) = fun k : Int => k := rfl
    rw [h3, List.map_id']
    rw [(sortInts_perm _).mem_iff]
    rw [← alistGet_isSome_iff_mem]
    exact categoriesMapOf_keys_isSome (allAnns images) k
  · intro c hc
    show ((allAnns images).find? (fun a => a.label_id == c.id)).map
      (fun a => a.label_name) = some c.name
    rw [cocoCategoriesOf] at hc
    obtain ⟨k, hk, rfl⟩ := List.mem_map.mp hc
    have hkeys : k ∈ (categoriesMapOf [] (allAnns images)).map Prod.fst :=
      (sortInts_perm _).mem_iff.mp hk
    have hsome := (alistGet_isSome_iff_mem _ k).mpr hkeys
    cases hv : alistGet (categoriesMapOf [] (allAnns images)) k with
    | none =>
      rw [hv] at hsome
      cases hsome
    | some v =>
      have hfind := categoriesMapOf_get (allAnns images) [] k
      rw [hv] at hfind
      simp only [alistGet] at hfind
      show ((allAnns images).find? (fun a => a.label_id == k)).map
        (fun a => a.label_name) = some ((some v).getD "")
      rw [← hfind]
      rfl

/-- C3 as stated is false at a concrete input: two annotations share label
id 1 under the names "a" and "b", so the distinct (label_id, label_name)
pairs actually used include (1, "b"), yet the exported category list holds
only the first-encountered pair (1, "a"). -/
theorem coco_categories_counterex :
    ∃ doc, export_to_coco [dupLabelImg] = .ok doc ∧
      ((1 : Int), "b") ∈ usedLabelPairs [dupLabelImg] ∧
      doc.categories.map (fun c => (c.id, c.name)) = [((1 : Int), "a")] := by
  refine ⟨_, rfl, by decide, by decide⟩

/-- Witness for the amended C3 at a concrete input. -/
theorem coco_export_spec_witness :
    ([dupLabelImg] ≠ ([] : List ImageMetadata)) ∧
    (∀ img ∈ [dupLabelImg], ∀ a ∈ img.annotations, a.bounding_box.isSome) ∧
    allAnns [dupLabelImg] ≠ [] ∧
    ∃ doc, export_to_coco [dupLabelImg] = .ok doc ∧
      (doc.categories.map (fun c => c.id)).Pairwise (· ≤ ·) ∧
      doc.images.map (fun ci => ci.id)
        = List.map (fun n : Nat => (n : Int)) (List.range' 1 1) := by
  refine ⟨by decide, by decide, by decide, ?_⟩
  obtain ⟨doc, hok, h1, h2, h3, h4, h5, h6, h7, h8⟩ :=
    coco_export_spec [dupLabelImg] (by decide) (by decide) (by decide)
  exact ⟨doc, hok, h5, h1⟩

theorem matchFold_get_not_mem (fs : List FsPath) (base : FsPath)
    (imgs : List CocoImage) (acc : List (Int × FsPath)) (k : Int)
    (h : ∀ ci ∈ imgs, ci.id ≠ k) :
    alistGet (match_images_to_files fs base acc imgs) k = alistGet acc k := by
  induction imgs generalizing acc with
  | nil => rfl
  | cons ci rest ih =>
    rw [match_images_to_files]
    cases hm : match_image_file fs base ci.file_name with
    | some p =>
      rw [ih (alistInsert acc ci.id p) (fun c hc => h c (List.mem_cons_of_mem _ hc))]
      exact alistGet_insert_ne acc ci.id k p
        (fun hk => h ci (List.mem_cons_self _ _) hk.symm)
    | none =>
      exact ih acc (fun c hc => h c (List.mem_cons_of_mem _ hc))

theorem matchFold_get (fs : List FsPath) (base : FsPath)
    (imgs : List CocoImage) (acc : List (Int × FsPath))
    (hnod : (imgs.map (fun ci => ci.id)).Nodup)
    (ci : CocoImage) (hci : ci ∈ imgs) (hacc : alistGet acc ci.id = none) :
    alistGet (match_images_to_files fs base acc imgs) ci.id =
      match_image_file fs base ci.file_name := by
  induction imgs generalizing acc with
  | nil => cases hci
  | cons c0 rest ih =>
    rw [List.map_cons, List.nodup_cons] at hnod
    obtain ⟨h0, hrest⟩ := hnod
    rcases List.mem_cons.mp hci with rfl | hci'
    · have hne : ∀ c ∈ rest, c.id ≠ ci.id := by
        intro c hc hceq
        exact h0 (hceq ▸ List.mem_map_of_mem (fun x => x.id) hc)
      rw [match_images_to_files]
      cases hm : match_image_file fs base ci.file_name with
      | some p =>
        rw [matchFold_get_not_mem fs base rest _ ci.id hne]
        exact alistGet_insert_self acc ci.id p
      | none =>
        rw [matchFold_get_not_mem fs base rest acc ci.id hne]
        exact hacc
    · have hne0 : ci.id ≠ c0.id := by
        intro hq
        exact h0 (hq ▸ List.mem_map_of_mem (fun x => x.id) hci')
      rw [match_images_to_files]
      cases hm : match_image_file fs base c0.file_name with
      | some p =>
        refine ih _ hrest hci' ?_
        rw [alistGet_insert_ne acc c0.id ci.id p hne0]
        exact hacc
      | none => exact ih acc hrest hci' hacc

theorem buildImages_filenames (freshImg : Nat → String)
    (pmap : List (Int × FsPath)) (grouped : List (Int × List Annotation))
    (cis : List CocoImage) (n : Nat) :
    (buildImages freshImg pmap grouped n cis).map (fun m => m.filename) =
      (cis.filter (fun ci => (alistGet pmap ci.id).isSome)).map
        (fun ci => ci.file_name) := by
  induction cis generalizing n with
  | nil => rfl
  | cons ci rest ih =>
    rw [buildImages, List.filter_cons]
    cases hp : alistGet pmap ci.id with
    | none =>
      simp only [hp, Option.isSome_none, Bool.false_eq_true, if_false]
      exact ih n
    | some p =>
      simp only [hp, Option.isSome_some, if_true, List.map_cons]
      rw [ih (n + 1)]

/-- C4: importing a COCO document validates the three required top-level
keys (failing the whole import with the format error exactly when one is
missing), defaults the base directory to the JSON file's directory unless
overridden, resolves each declared image by the three-tier
first-match-wins strategy (direct path under the base, bare filename under
the base, first recursive match), and silently drops the images no tier
resolves while keeping the rest in order. -/
theorem coco_import_spec (fs : List FsPath) (fresh freshImg : Nat → String)
    (t : Nat) (doc : CocoFile) (dir : FsPath) (base : Option FsPath) :
    (import_from_coco fs fresh freshImg t doc dir base = .error .formatError ↔
      ¬ (doc.images.isSome ∧ doc.annotations.isSome ∧ doc.categories.isSome)) ∧
    (import_from_coco fs fresh freshImg t doc dir none
      = import_from_coco fs fresh freshImg t doc dir (some dir)) ∧
    (∀ fname : FsPath,
      (fs.contains ((base.getD dir) ++ fname) = true →
        match_image_file fs (base.getD dir) fname = some ((base.getD dir) ++ fname)) ∧
      (fs.contains ((base.getD dir) ++ fname) = false →
        fs.contains ((base.getD dir) ++ [fname.getLastD ""]) = true →
        match_image_file fs (base.getD dir) fname
          = some ((base.getD dir) ++ [fname.getLastD ""])) ∧
      (fs.contains ((base.getD dir) ++ fname) = false →
        fs.contains ((base.getD dir) ++ [fname.getLastD ""]) = false →
        match_image_file fs (base.getD dir) fname
          = (fs.filter (fun p => (base.getD dir).isPrefixOf p &&
              decide (p.getLastD "" = fname.getLastD ""))).head?)) ∧
    ((doc.images.isSome ∧ doc.annotations.isSome ∧ doc.categories.isSome) →
      ((doc.images.getD []).map (fun ci => ci.id)).Nodup →
      ∃ res lm, import_from_coco fs fresh freshImg t doc dir base = .ok (res, lm) ∧
        res.map (fun m => m.filename)
          = ((doc.images.getD []).filter
              (fun ci => ( match_image_file fs (base.getD dir) ci.file_name).isSome)).map
              (fun ci => ci.file_name)) := by
  refine ⟨?_, rfl, ?_, ?_⟩
  · by_cases hk : doc.images.isSome ∧ doc.annotations.isSome ∧ doc.categories.isSome
    · rw [import_from_coco, if_pos hk]
      constructor
      · intro hbad
        cases hbad
      · intro hbad
        exact absurd hk hbad
    · rw [import_from_coco, if_neg hk]
      exact ⟨fun _ => hk, fun _ => rfl⟩
  · intro fname
    refine ⟨?_, ?_, ?_⟩
    · intro h1
      rw [match_image_file, if_pos h1]
    · intro h1 h2
      rw [match_image_file, if_neg (by rw [h1]; intro h; cases h), if_pos h2]
    · intro h1 h2
      rw [match_image_file, if_neg (by rw [h1]; intro h; cases h),
        if_neg (by rw [h2]; intro h; cases h)]
      cases fs.filter (fun p => (base.getD dir).isPrefixOf p &&
          decide (p.getLastD "" = fname.getLastD "")) with
      | nil => rfl
      | cons m rest => rfl
  · intro hk hnod
    rw [import_from_coco, if_pos hk]
    refine ⟨_, _, rfl, ?_⟩
    rw [buildImages_filenames]
    congr 1
    apply List.filter_congr
    intro ci hci
    rw [matchFold_get fs (base.getD dir) (doc.images.getD []) [] hnod ci hci rfl]

/-- Witness for C4 at concrete inputs: a document missing its `images` key
fails with the format error; the three-tier resolution hits tier 2 for
`sub/cat.jpg` (bare name under the base), tier 3 for `deep/dog.png`
(recursive), and fails for `missing.jpg`; the unresolvable image is
dropped while the others are imported in order. -/
theorem coco_import_spec_witness :
    import_from_coco fsW (fun _ => "u") (fun _ => "v") 0
      { images := none, annotations := some [], categories := some [] }
      ["base"] none = .error .formatError ∧
    match_image_file fsW ["base"] ["sub", "cat.jpg"] = some ["base", "cat.jpg"] ∧
    match_image_file fsW ["base"] ["deep", "dog.png"]
      = some ["base", "other", "dog.png"] ∧
    match_image_file fsW ["base"] ["missing.jpg"] = none ∧
    ∃ res lm, import_from_coco fsW (fun _ => "u") (fun _ => "v") 0 docW ["base"] none
        = .ok (res, lm) ∧
      res.map (fun m => m.filename) = [["sub", "cat.jpg"], ["deep", "dog.png"]] := by
  have hbad := (coco_import_spec fsW (fun _ => "u") (fun _ => "v") 0
      { images := none, annotations := some [], categories := some [] }
      ["base"] none).1
  have htiers := (coco_import_spec fsW (fun _ => "u") (fun _ => "v") 0 docW
      ["base"] none).2.2.1
  have hkeep := (coco_import_spec fsW (fun _ => "u") (fun _ => "v") 0 docW
      ["base"] none).2.2.2 (by decide) (by decide)
  refine ⟨hbad.mpr (by decide), ?_, ?_, ?_, ?_⟩
  · exact (htiers ["sub", "cat.jpg"]).2.1 (by decide) (by decide)
  · show match_image_file fsW ((none : Option FsPath).getD ["base"])
      ["deep", "dog.png"] = some ["base", "other", "dog.png"]
    rw [(htiers ["deep", "dog.png"]).2.2 (by decide) (by decide)]
    decide
  · show match_image_file fsW ((none : Option FsPath).getD ["base"])
      ["missing.jpg"] = none
    rw [(htiers ["missing.jpg"]).2.2 (by decide) (by decide)]
    decide
  · obtain ⟨res, lm, hok, hmap⟩ := hkeep
    refine ⟨res, lm, hok, ?_⟩
    rw [hmap]
    decide

theorem cocoAnnsOf_append_ok (n : Nat) (xs ys : List (Nat × Annotation))
    (res : List CocoAnnotation)
    (h : cocoAnnsOf n (xs ++ ys) = .ok res) :
    ∃ as bs, cocoAnnsOf n xs = .ok as ∧
      cocoAnnsOf (n + xs.length) ys = .ok bs ∧ res = as ++ bs := by
  induction xs generalizing n res with
  | nil => exact ⟨[], res, rfl, by simpa using h, rfl⟩
  | cons p rest ih =>
    obtain ⟨i, a⟩ := p
    rw [List.cons_append, cocoAnnsOf] at h
    cases hab : a.bounding_box with
    | none =>
      rw [hab] at h
      cases h
    | some b =>
      rw [hab] at h
      cases hr : cocoAnnsOf (n + 1) (rest ++ ys) with
      | error e =>
        rw [hr] at h
        cases h
      | ok tl =>
        rw [hr] at h
        cases h
        obtain ⟨as, bs, h1, h2, rfl⟩ := ih (n + 1) tl hr
        refine ⟨_ :: as, bs, ?_, ?_, (List.cons_append _ as bs).symm⟩
        · rw [cocoAnnsOf, hab, h1]
        · simp only [List.length_cons]
          have he : n + (rest.length + 1) = n + 1 + rest.length := by omega
          rw [he]
          exact h2

theorem cocoAnnsOf_proj_of_ok (n : Nat) (l : List (Nat × Annotation))
    (anns : List CocoAnnotation) (hok : cocoAnnsOf n l = .ok anns) :
    anns.map (fun a => (a.image_id, a.category_id, some (boxFromList a.bbox)))
      = l.map (fun p => (((p.1 : Nat) : Int), p.2.label_id, p.2.bounding_box)) := by
  induction l generalizing n anns with
  | nil =>
    cases hok
    rfl
  | cons p rest ih =>
    obtain ⟨i, a⟩ := p
    rw [cocoAnnsOf] at hok
    cases hab : a.bounding_box with
    | none =>
      rw [hab] at hok
      cases hok
    | some b =>
      rw [hab] at hok
      cases hr : cocoAnnsOf (n + 1) rest with
      | error e =>
        rw [hr] at hok
        cases hok
      | ok tail =>
        rw [hr] at hok
        cases hok
        rw [List.map_cons, List.map_cons, ih (n + 1) tail hr, hab]
        rfl

theorem flatAnnsFrom_fst_ge (s : Nat) (imgs : List ImageMetadata) :
    ∀ p ∈ flatAnnsFrom s imgs, s ≤ p.1 := by
  induction imgs generalizing s with
  | nil =>
    intro p hp
    simp [flatAnnsFrom] at hp
  | cons img rest ih =>
    intro p hp
    rw [flatAnnsFrom] at hp
    rcases List.mem_append.mp hp with hp' | hp'
    · obtain ⟨a, _, rfl⟩ := List.mem_map.mp hp'
      exact Nat.le_refl s
    · exact Nat.le_trans (Nat.le_succ s) (ih (s + 1) p hp')

theorem filterConcatByIds_append_left (as bs : List CocoAnnotation) (ks : List Int)
    (h : ∀ ca ∈ as, ∀ k ∈ ks, ¬ ca.image_id = k) :
    filterConcatByIds (as ++ bs) ks = filterConcatByIds bs ks := by
  induction ks with
  | nil => rfl
  | cons k ks ih =>
    rw [filterConcatByIds, filterConcatByIds, List.filter_append]
    rw [List.filter_eq_nil.mpr
      (fun ca hca => by simpa using h ca hca k (List.mem_cons_self _ _))]
    rw [List.nil_append]
    rw [ih (fun ca hca k' hk' => h ca hca k' (List.mem_cons_of_mem _ hk'))]

theorem roundTripSlices (imgs : List ImageMetadata) (s n : Nat)
    (anns : List CocoAnnotation)
    (hok : cocoAnnsOf n (flatAnnsFrom s imgs) = .ok anns) :
    (filterConcatByIds anns
        (List.map (fun m : Nat => (m : Int)) (List.range' s imgs.length))).map
        (fun ca => (ca.category_id, some (boxFromList ca.bbox)))
      = (allAnns imgs).map (fun a => (a.label_id, a.bounding_box)) := by
  induction imgs generalizing s n anns with
  | nil =>
    cases hok
    rfl
  | cons img rest ih =>
    rw [flatAnnsFrom] at hok
    obtain ⟨as, bs, h1, h2, rfl⟩ := cocoAnnsOf_append_ok _ _ _ _ hok
    have has := cocoAnnsOf_proj_of_ok _ _ _ h1
    have hbs := cocoAnnsOf_proj_of_ok _ _ _ h2
    have has_id : ∀ ca ∈ as, ca.image_id = (s : Int) := by
      intro ca hca
      have hmem := List.mem_map_of_mem
        (fun a : CocoAnnotation => (a.image_id, a.category_id, some (boxFromList a.bbox))) hca
      rw [has] at hmem
      obtain ⟨p, hp, hpe⟩ := List.mem_map.mp hmem
      obtain ⟨a0, _, rfl⟩ := List.mem_map.mp hp
      have hfst := congrArg (fun t : Int × Int × Option BoundingBox => t.1) hpe
      simpa using hfst.symm
    have hbs_id : ∀ ca ∈ bs, ¬ ca.image_id = (s : Int) := by
      intro ca hca
      have hmem := List.mem_map_of_mem
        (fun a : CocoAnnotation => (a.image_id, a.category_id, some (boxFromList a.bbox))) hca
      rw [hbs] at hmem
      obtain ⟨p, hp, hpe⟩ := List.mem_map.mp hmem
      have hge := flatAnnsFrom_fst_ge (s + 1) rest p hp
      have hfst : (p.1 : Int) = ca.image_id := by
        simpa using congrArg (fun t : Int × Int × Option BoundingBox => t.1) hpe
      intro heq
      rw [heq] at hfst
      have hps : p.1 = s := by exact_mod_cast hfst
      omega
    have hrange : List.range' s (img :: rest).length = s :: List.range' (s + 1) rest.length := by
      rw [List.length_cons]
      rfl
    rw [hrange, List.map_cons, filterConcatByIds]
    have hfilter_head : (as ++ bs).filter (fun ca => ca.image_id == (s : Int)) = as := by
      rw [List.filter_append]
      rw [List.filter_eq_self.mpr (fun ca hca => by simpa using has_id ca hca)]
      rw [List.filter_eq_nil.mpr (fun ca hca => by simpa using hbs_id ca hca)]
      rw [List.append_nil]
    have htail : filterConcatByIds (as ++ bs)
        (List.map (fun m : Nat => (m : Int)) (List.range' (s + 1) rest.length))
        = filterConcatByIds bs
          (List.map (fun m : Nat => (m : Int)) (List.range' (s + 1) rest.length)) := by
      apply filterConcatByIds_append_left
      intro ca hca k hk
      obtain ⟨m, hm, rfl⟩ := List.mem_map.mp hk
      have hmge := List.mem_range'_1.mp hm
      rw [has_id ca hca]
      intro hcast
      have : s = m := by exact_mod_cast hcast
      omega
    rw [hfilter_head, htail, List.map_append]
    have hhead : as.map (fun ca => (ca.category_id, some (boxFromList ca.bbox)))
        = img.annotations.map (fun a => (a.label_id, a.bounding_box)) := by
      have h3 := congrArg
        (List.map (fun t : Int × Int × Option BoundingBox => t.2)) has
      rw [List.map_map, List.map_map, List.map_map] at h3
      exact h3
    rw [allAnns, List.map_append, hhead]
    rw [ih (s + 1) _ bs h2]

theorem insertGrouped_get_self (acc : List (Int × List Annotation)) (i : Int)
    (a : Annotation) :
    (alistGet (insertGrouped acc i a) i).getD []
      = ((alistGet acc i).getD []) ++ [a] := by
  rw [insertGrouped]
  cases hg : alistGet acc i with
  | some l =>
    rw [alistGet_insert_self]
    simp [hg]
  | none =>
    rw [alistGet_append_right acc _ _ hg]
    simp [alistGet, hg]

theorem insertGrouped_get_ne (acc : List (Int × List Annotation)) (i k : Int)
    (a : Annotation) (hne : k ≠ i) :
    alistGet (insertGrouped acc i a) k = alistGet acc k := by
  rw [insertGrouped]
  cases hg : alistGet acc i with
  | some l => exact alistGet_insert_ne acc i k _ hne
  | none =>
    cases hgk : alistGet acc k with
    | some v =>
      rw [alistGet_append_left acc _ k (by rw [hgk]; rfl)]
      exact hgk
    | none =>
      rw [alistGet_append_right acc _ k hgk]
      have hne' : ¬ i = k := fun h => hne h.symm
      simp [alistGet, hne']

theorem convert_group_proj (lm : List (Int × String)) (fresh : Nat → String)
    (t : Nat) (cas : List CocoAnnotation) (n : Nat)
    (acc : List (Int × List Annotation)) (k : Int) :
    ((alistGet (convert_annotations lm fresh t n acc cas) k).getD []).map
        (fun a => (a.label_id, a.bounding_box))
      = ((alistGet acc k).getD []).map (fun a => (a.label_id, a.bounding_box))
        ++ (cas.filter (fun ca => ca.image_id == k)).map
            (fun ca => (ca.category_id, some (boxFromList ca.bbox))) := by
  induction cas generalizing n acc with
  | nil => simp [convert_annotations]
  | cons ca rest ih =>
    rw [convert_annotations, ih, List.filter_cons]
    by_cases hk : ca.image_id = k
    · subst hk
      simp only [beq_self_eq_true, if_true, List.map_cons]
      rw [insertGrouped_get_self, List.map_append]
      simp [List.append_assoc]
    · have hbeq : (ca.image_id == k) = false := by simpa using hk
      simp only [hbeq, Bool.false_eq_true, if_false]
      rw [insertGrouped_get_ne acc ca.image_id k _ (fun h => hk h.symm)]

theorem buildImages_allAnns (freshImg : Nat → String) (pmap : List (Int × FsPath))
    (grouped : List (Int × List Annotation)) (cis : List CocoImage) (n : Nat)
    (hres : ∀ ci ∈ cis, (alistGet pmap ci.id).isSome) :
    allAnns (buildImages freshImg pmap grouped n cis) = groupedConcat grouped cis := by
  induction cis generalizing n with
  | nil => rfl
  | cons ci rest ih =>
    rw [buildImages]
    cases hp : alistGet pmap ci.id with
    | none =>
      have := hres ci (List.mem_cons_self _ _)
      rw [hp] at this
      cases this
    | some p =>
      rw [groupedConcat, allAnns]
      rw [ih (n + 1) (fun c hc => hres c (List.mem_cons_of_mem _ hc))]

theorem groupedConcat_proj (grouped : List (Int × List Annotation))
    (cas : List CocoAnnotation)
    (hG : ∀ k, ((alistGet grouped k).getD []).map
        (fun a => (a.label_id, a.bounding_box))
      = (cas.filter (fun ca => ca.image_id == k)).map
          (fun ca => (ca.category_id, some (boxFromList ca.bbox))))
    (cis : List CocoImage) :
    (groupedConcat grouped cis).map (fun a => (a.label_id, a.bounding_box))
      = (filterConcatByIds cas (cis.map (fun ci => ci.id))).map
          (fun ca => (ca.category_id, some (boxFromList ca.bbox))) := by
  induction cis with
  | nil => rfl
  | cons ci rest ih =>
    rw [groupedConcat, List.map_cons, filterConcatByIds, List.map_append,
      List.map_append, hG ci.id, ih]

/-- C1: exporting any image list (with at least one annotation, every
annotation carrying a bounding box) to COCO and re-importing the resulting
document — assuming every declared image resolves on disk — yields exactly
the same number of annotations, whose `(label_id, bounding_box)` pairs
match those exported, in order (internal ids may differ; they are freshly
generated). -/
theorem coco_export_import_round_trip (images : List ImageMetadata)
    (fs : List FsPath) (fresh freshImg : Nat → String) (t : Nat)
    (dir : FsPath) (base : Option FsPath)
    (hne : images ≠ [])
    (hbox : ∀ img ∈ images, ∀ a ∈ img.annotations, a.bounding_box.isSome)
    (hM : allAnns images ≠ [])
    (hres : ∀ ci ∈ cocoImagesOf images,
      ( match_image_file fs (base.getD dir) ci.file_name).isSome) :
    ∃ doc, export_to_coco images = .ok doc ∧
      ∃ res lm, import_from_coco fs fresh freshImg t (cocoFileOf doc) dir base
          = .ok (res, lm) ∧
        (allAnns res).map (fun a => (a.label_id, a.bounding_box))
          = (allAnns images).map (fun a => (a.label_id, a.bounding_box)) ∧
        (allAnns res).length = (allAnns images).length := by
  obtain ⟨anns, hok, hids, hproj, hshape⟩ :=
    cocoAnnsOf_ok 1 (flatAnnsFrom 1 images) (flatAnnsFrom_box 1 images hbox)
  have hlen : (flatAnnsFrom 1 images).length = (allAnns images).length := by
    rw [← flatAnnsFrom_snd 1 images, List.length_map]
  have hannsne : anns.isEmpty = false := by
    have hlanns : anns.length = (allAnns images).length := by
      rw [← List.length_map anns (fun a => a.id), hids, List.length_map,
        List.length_range', hlen]
    cases hanns : anns with
    | nil =>
      rw [hanns] at hlanns
      cases hall : allAnns images with
      | nil => exact absurd hall hM
      | cons y ys =>
        rw [hall] at hlanns
        simp at hlanns
    | cons y ys => rfl
  have hineb : images.isEmpty = false := by
    cases images with
    | nil => exact absurd rfl hne
    | cons i l => rfl
  have hexp : export_to_coco images
      = .ok { images := cocoImagesOf images, annotations := anns,
              categories := cocoCategoriesOf (categoriesMapOf [] (allAnns images)) } := by
    rw [export_to_coco, hineb]
    simp only [Bool.false_eq_true, if_false, hok, hannsne]
  have hidsdoc : (cocoImagesOf images).map (fun ci => ci.id)
      = List.map (fun n : Nat => (n : Int)) (List.range' 1 images.length) := by
    rw [cocoImagesOf, List.map_map]
    have h1 : ((fun ci : CocoImage => ci.id) ∘ (fun p : Nat × ImageMetadata =>
        ({ id := (p.1 : Int), file_name := p.2.filename, width := p.2.width,
           height := p.2.height } : CocoImage)))
        = (fun n : Nat => (n : Int)) ∘ Prod.fst := rfl
    rw [h1, ← List.map_map, withIdx_map_fst]
  have hnod : ((cocoImagesOf images).map (fun ci => ci.id)).Nodup := by
    rw [hidsdoc]
    have hinj : Function.Injective (fun n : Nat => (n : Int)) := by
      intro a b hab
      have hab' : (a : Int) = (b : Int) := hab
      exact_mod_cast hab'
    exact (List.nodup_range' _ _).map hinj
  have hpm : ∀ ci ∈ cocoImagesOf images,
      (alistGet (match_images_to_files fs (base.getD dir) [] (cocoImagesOf images)) ci.id).isSome := by
    intro ci hci
    rw [matchFold_get fs (base.getD dir) (cocoImagesOf images) [] hnod ci hci rfl]
    exact hres ci hci
  refine ⟨_, hexp,
    buildImages freshImg
      (match_images_to_files fs (base.getD dir) [] (cocoImagesOf images))
      (convert_annotations
        (build_label_map (cocoCategoriesOf (categoriesMapOf [] (allAnns images))))
        fresh t 0 [] anns)
      0 (cocoImagesOf images),
    build_label_map (cocoCategoriesOf (categoriesMapOf [] (allAnns images))),
    ?_, ?_, ?_⟩
  · rw [import_from_coco, if_pos ⟨rfl, rfl, rfl⟩]
    rfl
  · rw [buildImages_allAnns _ _ _ _ _ hpm]
    rw [groupedConcat_proj _ anns
      (fun k => by
        have hg := convert_group_proj
          (build_label_map (cocoCategoriesOf (categoriesMapOf [] (allAnns images))))
          fresh t anns 0 [] k
        simpa [alistGet] using hg)
      (cocoImagesOf images)]
    rw [hidsdoc]
    exact roundTripSlices images 1 1 anns hok
  · rw [buildImages_allAnns _ _ _ _ _ hpm]
    have hfin := groupedConcat_proj
      (convert_annotations
        (build_label_map (cocoCategoriesOf (categoriesMapOf [] (allAnns images))))
        fresh t 0 [] anns) anns
      (fun k => by
        have hg := convert_group_proj
          (build_label_map (cocoCategoriesOf (categoriesMapOf [] (allAnns images))))
          fresh t anns 0 [] k
        simpa [alistGet] using hg)
      (cocoImagesOf images)
    rw [hidsdoc] at hfin
    rw [roundTripSlices images 1 1 anns hok] at hfin
    have hlc := congrArg List.length hfin
    rw [List.length_map, List.length_map] at hlc
    exact hlc

/-- Witness for C1 at a concrete input: one image with one annotation
survives the COCO export/import round trip with its (label_id, box) pair
intact. -/
theorem coco_export_import_round_trip_witness :
    ([rtImg] ≠ ([] : List ImageMetadata)) ∧
    allAnns [rtImg] ≠ [] ∧
    ∃ doc, export_to_coco [rtImg] = .ok doc ∧
      ∃ res lm, import_from_coco [["d", "a.jpg"]] (fun _ => "u") (fun _ => "v") 0
          (cocoFileOf doc) ["d"] none = .ok (res, lm) ∧
        (allAnns res).map (fun a => (a.label_id, a.bounding_box))
          = (allAnns [rtImg]).map (fun a => (a.label_id, a.bounding_box)) ∧
        (allAnns res).length = (allAnns [rtImg]).length := by
  refine ⟨by decide, by decide, ?_⟩
  exact coco_export_import_round_trip [rtImg] [["d", "a.jpg"]] (fun _ => "u")
    (fun _ => "v") 0 ["d"] none (by decide) (by decide) (by decide) (by decide)
